import Mathlib

/-
Verification development for the session orchestration engine of the
ExtensionYT download server.  The definitions below are a shallow embedding
of the server source: the session registry, the cancellation controller
(cancelSession), the extraction worker's post-exit continuation
(downloadVideoOrAudio), the batch orchestrator (processBatchDownload), the
retention sweeper (cleanupOldFiles), the filename sanitizer
(sanitizeFilename) and the WebSocket close handler.  Timestamps are Int
(milliseconds), the artifact store is an association list from file name to
modification time, and each stateful routine additionally returns the list
of observable events (signals sent, files deleted, messages published) in
the order the source performs them.
-/

set_option maxHeartbeats 1000000

/-! ## Character and string helpers (kernel-reducible replacements for the
JavaScript string operations used by the source) -/

/-- ASCII lowercase of one character; the source lowercases names only to
compare against ASCII extension literals. -/
def charToLower (c : Char) : Char :=
  if 'A' ≤ c ∧ c ≤ 'Z' then Char.ofNat (c.toNat + 32) else c

/-- Lowercase a string character by character (toLowerCase in the source). -/
def strLower (s : String) : String := String.mk (s.data.map charToLower)

/-- The first list is a leading segment of the second. -/
def leadMatch : List Char → List Char → Bool
  | [], _ => true
  | _ :: _, [] => false
  | a :: as, b :: bs => a == b && leadMatch as bs

/-- s starts with t (String.prototype.startsWith). -/
def strStarts (s t : String) : Bool := leadMatch t.data s.data

/-- s ends with t (String.prototype.endsWith). -/
def strEnds (s t : String) : Bool := leadMatch t.data.reverse s.data.reverse

/-- The needle occurs contiguously inside the haystack. -/
def containsSeq (needle : List Char) : List Char → Bool
  | [] => needle.isEmpty
  | h :: t => leadMatch needle (h :: t) || containsSeq needle t

/-- s contains t (String.prototype.includes). -/
def strIncludes (s t : String) : Bool := containsSeq t.data s.data

/-! ## Artifact store -/

/-- The download directory: file names paired with modification times (ms). -/
abbrev FS := List (String × Int)

/-- fs.existsSync for a name inside the download directory. -/
def onDisk (fs : FS) (name : String) : Bool := fs.any (fun p => p.1 == name)

/-- fs.statSync, reduced to the modification time; none models the throw on a
missing file. -/
def statMtime (fs : FS) (name : String) : Option Int :=
  (fs.find? (fun p => p.1 == name)).map Prod.snd

/-- fs.unlinkSync: remove every entry carrying the name. -/
def unlink (fs : FS) (name : String) : FS := fs.filter (fun p => p.1 != name)

/-! ## Progress messages -/

/-- The kind discriminator of a WebSocket progress message. -/
inductive MType where
  | start
  | progress
  | success
  | error
  | complete
deriving DecidableEq

/-- A progress message as the source builds it (the downloadUrl plumbing,
which no claim mentions, is omitted). -/
structure Msg where
  type : MType
  sessionId : String
  current : Option Nat
  total : Option Nat
  videoUrl : Option String
  videoTitle : Option String
  videoDuration : Option String
  fileName : Option String
  error : Option String
  playlistTotalSongs : Option Nat
  playlistTotalDuration : Option String
  successful : Option Nat
  failed : Option Nat
deriving DecidableEq

/-- A message with only the kind and session id set. -/
def msgBase (t : MType) (sid : String) : Msg :=
  ⟨t, sid, none, none, none, none, none, none, none, none, none, none, none⟩

/-- An error message carrying only an error text. -/
def mkErrMsg (sid : String) (e : String) : Msg :=
  { msgBase MType.error sid with error := some e }

/-- The single cancellation message cancelSession publishes. -/
def cancelMsg (sid : String) : Msg := mkErrMsg sid ("Download cancelled by user")

/-! ## Sessions and server state -/

/-- A child-process handle: its pid and the killed flag Node keeps on the
handle once a signal has been dispatched to it. -/
structure ProcHandle where
  pid : Nat
  killed : Bool
deriving DecidableEq

/-- Per-session bookkeeping, exactly the record the source stores. -/
structure SessionData where
  cancelled : Bool
  processes : List ProcHandle
  files : List String
  startTime : Int
  expectedFilePatterns : List String
deriving DecidableEq

/-- A fresh record as getSessionData creates it. -/
def emptySession (now : Int) : SessionData :=
  ⟨false, [], [], now, []⟩

/-- JS Set.add: append unless already present. -/
def setAdd (l : List String) (x : String) : List String :=
  if l.contains x then l else l ++ [x]

/-- The whole server: the session map, the download directory, the set of
open WebSocket connections, the messages actually handed to an open socket,
and the session removals scheduled by cancelSession's grace timer. -/
structure ServerState where
  sessions : String → Option SessionData
  fs : FS
  wsOpen : List String
  sent : List (String × Msg)
  pendingRemovals : List String

/-- Observable events, listed in the order the source performs them. -/
inductive Event where
  | setCancelled (sid : String)
  | kill (pid : Nat)
  | deleteFile (name : String)
  | sweepDelete (name : String)
  | publish (sid : String) (m : Msg)
  | scheduleRemoval (sid : String)
deriving DecidableEq

/-- getSessionData: return the stored record, creating a fresh one (with the
current time as startTime) when the id is unknown. -/
def getSessionData (now : Int) (sid : String) (st : ServerState) :
    SessionData × ServerState :=
  match st.sessions sid with
  | some d => (d, st)
  | none =>
    let d := emptySession now
    (d, { st with sessions := fun s => if s = sid then some d else st.sessions s })

/-- Store a record under an id (the source mutates the stored object). -/
def putSession (st : ServerState) (sid : String) (d : SessionData) : ServerState :=
  { st with sessions := fun s => if s = sid then some d else st.sessions s }

/-- The getSessionData-then-mutate idiom the source uses everywhere. -/
def modifySession (now : Int) (sid : String) (f : SessionData → SessionData)
    (st : ServerState) : ServerState :=
  let p := getSessionData now sid st
  putSession p.2 sid (f p.1)

/-- Read the cancelled flag of a stored record; false when none is stored. -/
def isCancelled (st : ServerState) (sid : String) : Bool :=
  match st.sessions sid with
  | some d => d.cancelled
  | none => false

/-- sendWebSocketMessage: hand the message to the socket when one is open for
the session, silently drop it otherwise. -/
def sendWebSocketMessage (sid : String) (m : Msg) (st : ServerState) : ServerState :=
  if st.wsOpen.contains sid then { st with sent := st.sent ++ [(sid, m)] } else st

/-- The delayed sessionData.delete scheduled by cancelSession's grace timer. -/
def fireRemoval (sid : String) (st : ServerState) : ServerState :=
  { st with
      sessions := fun s => if s = sid then none else st.sessions s,
      pendingRemovals := st.pendingRemovals.filter (fun s => s != sid) }

/-! ## Cancellation controller (cancelSession) -/

/-- Kill every registered handle that does not already carry the killed flag;
afterwards every handle carries it. -/
def killProcesses (ps : List ProcHandle) : List ProcHandle × List Event :=
  (ps.map (fun p => { p with killed := true }),
   (ps.filter (fun p => !p.killed)).map (fun p => Event.kill p.pid))

/-- Delete every registered file that still exists; a missing file is
skipped (the existsSync guard in the source). -/
def deleteRegFiles : List String → FS → FS × List Event
  | [], fs => (fs, [])
  | f :: rest, fs =>
    if onDisk fs f then
      let r := deleteRegFiles rest (unlink fs f)
      (r.1, Event.deleteFile f :: r.2)
    else
      deleteRegFiles rest fs

/-- Age bound of the heuristic sweep: five minutes in milliseconds. -/
def maxFileAge : Int := 5 * 60 * 1000

/-- The name with its final dot-extension removed, as the regex in the
source strips it (no change when there is no extension segment). -/
def stripExt (name : String) : String :=
  let rev := name.data.reverse
  let seg := rev.takeWhile (fun c => c != '.')
  if seg.isEmpty || seg.length == rev.length then name
  else String.mk ((rev.drop (seg.length + 1)).reverse)

/-- The ad-hoc pattern test of the sweep: the extension-stripped name starts
with the pattern, or contains it, or the pattern contains the first thirty
characters of the stripped name. -/
def matchesPattern (patterns : List String) (fileName : String) : Bool :=
  let fnwe := stripExt fileName
  patterns.any (fun pat =>
    strStarts fnwe pat || strIncludes fnwe pat ||
    containsSeq (fnwe.data.take 30) pat.data)

/-- The extension allow-list of the sweep. -/
def mediaExtensions : List String :=
  [".mp3", ".mp4", ".webm", ".m4a", ".opus", ".mkv", ".avi", ".mov"]

/-- Whether a name carries an allow-listed media extension
(case-insensitively, via toLowerCase in the source). -/
def isMediaFile (name : String) : Bool :=
  mediaExtensions.any (fun ext => strEnds (strLower name) ext)

/-- Whether the sweep deletes a name given its modification time: pattern
match or created inside the bounded session window, and media extension. -/
def sweepCond (patterns : List String) (startTime now : Int)
    (name : String) (mt : Int) : Bool :=
  (matchesPattern patterns name || ((now - mt) < maxFileAge && startTime ≤ mt))
    && isMediaFile name

/-- Whether the sweep would delete the name against the given store: the
stat must succeed and sweepCond must hold. -/
def sweepMatches (d : SessionData) (now : Int) (fs : FS) (name : String) : Bool :=
  match statMtime fs name with
  | none => false
  | some mt => sweepCond d.expectedFilePatterns d.startTime now name mt

/-- The heuristic sweep over a directory listing: skip registered names,
tolerate a failing stat, delete matching media files; per-file errors never
abort the remaining names. -/
def sweepFiles (d : SessionData) (now : Int) : List String → FS → FS × List Event
  | [], fs => (fs, [])
  | n :: rest, fs =>
    if d.files.contains n then sweepFiles d now rest fs
    else
      match statMtime fs n with
      | none => sweepFiles d now rest fs
      | some mt =>
        if sweepCond d.expectedFilePatterns d.startTime now n mt then
          let r := sweepFiles d now rest (unlink fs n)
          (r.1, Event.sweepDelete n :: r.2)
        else
          sweepFiles d now rest fs

/-- cancelSession: set the cancelled flag, signal the registered processes,
delete the registered files that still exist, sweep the download directory
heuristically, publish one cancellation message, and schedule removal of the
bookkeeping record. -/
def cancelSession (now : Int) (sid : String) (st : ServerState) :
    ServerState × List Event :=
  let p := getSessionData now sid st
  let d1 : SessionData := { p.1 with cancelled := true }
  let kp := killProcesses d1.processes
  let d2 : SessionData := { d1 with processes := kp.1 }
  let rd := deleteRegFiles d2.files p.2.fs
  let names := rd.1.map Prod.fst
  let sw := sweepFiles d2 now names rd.1
  let st1 := { putSession p.2 sid d2 with fs := sw.1 }
  let st2 := sendWebSocketMessage sid (cancelMsg sid) st1
  let st3 := { st2 with pendingRemovals := st2.pendingRemovals ++ [sid] }
  (st3,
   Event.setCancelled sid ::
     (kp.2 ++ rd.2 ++ sw.2 ++
       [Event.publish sid (cancelMsg sid), Event.scheduleRemoval sid]))

/-! ## Retention sweeper (cleanupOldFiles) -/

/-- cleanupOldFiles: delete every listed entry older than the threshold; a
file whose stat fails (already removed) is skipped and the sweep continues.
The source compares ageMinutes computed by float division against the
threshold; over integers this is the equivalent cleared comparison. -/
def cleanupOldFiles (now : Int) (maxAgeMinutes : Int) :
    List String → FS → FS × List Event
  | [], fs => (fs, [])
  | n :: rest, fs =>
    match statMtime fs n with
    | none => cleanupOldFiles now maxAgeMinutes rest fs
    | some mt =>
      if maxAgeMinutes * 60000 < now - mt then
        let r := cleanupOldFiles now maxAgeMinutes rest (unlink fs n)
        (r.1, Event.deleteFile n :: r.2)
      else
        cleanupOldFiles now maxAgeMinutes rest fs

/-! ## Extraction worker: post-exit continuation of downloadVideoOrAudio -/

/-- The two work categories of the worker. -/
inductive MediaFormat where
  | audio
  | video
deriving DecidableEq

/-- The outcome record the worker resolves with (downloadUrl omitted). -/
structure DlOutcome where
  success : Bool
  fileName : Option String
  error : Option String
deriving DecidableEq

/-- The cancellation failure outcome. -/
def cancelledOutcome : DlOutcome := ⟨false, none, some ("Download cancelled")⟩

/-- Result of the synchronous part of the close handler: either resolved, or
the delayed filesystem check is still pending. -/
inductive CloseStep where
  | resolved (r : DlOutcome)
  | pendingFileCheck
deriving DecidableEq

/-- Extension class the delayed file search accepts for each format. -/
def allowedExtensions (fmt : MediaFormat) : List String :=
  match fmt with
  | MediaFormat.audio => [".mp3", ".m4a", ".opus", ".webm"]
  | MediaFormat.video => [".mp4", ".webm", ".mkv", ".avi", ".mov"]

/-- The container the output template names for each format. -/
def expectedExtension (fmt : MediaFormat) : String :=
  match fmt with
  | MediaFormat.audio => "mp3"
  | MediaFormat.video => "mp4"

/-- The fallback search of the delayed check: first listed file whose name
starts with the chosen file name or the generated id, is not a .mhtml
artifact, and carries an allowed extension. -/
def findMatchingFile (fs : FS) (fmt : MediaFormat) (fileName safeId : String) :
    Option String :=
  ((fs.map Prod.fst).filter (fun f =>
    (strStarts f fileName || strStarts f safeId) && !(strEnds f (".mhtml")) &&
    (allowedExtensions fmt).any (fun ext => strEnds f ext))).head?

/-- The artifact the delayed check locates: the exact expected name first,
then the fallback search. -/
def locateArtifact (fs : FS) (fmt : MediaFormat) (fileName safeId : String) :
    Option String :=
  let expectedFileName := fileName ++ ("." ++ expectedExtension fmt)
  if onDisk fs expectedFileName then some expectedFileName
  else findMatchingFile fs fmt fileName safeId

/-- How the close handler resolves once the handle is unregistered, as a
function of the re-read cancelled flag, the exit code, the stored output
and the store: honour cancellation first, apply the narrow ffmpeg fallback
on a non-zero exit, otherwise leave the delayed filesystem check pending. -/
def workerCloseResolve (cancelled : Bool) (code : Int) (stderrData : String)
    (fmt : MediaFormat) (fileName : String) (fs : FS) : CloseStep :=
  if cancelled then CloseStep.resolved cancelledOutcome
  else if code ≠ 0 then
    let ffmpegMissing :=
      strIncludes stderrData ("ffprobe and ffmpeg not found") ||
        strIncludes stderrData ("ffmpeg not found")
    let webmFile := fileName ++ (".webm")
    if ffmpegMissing ∧ fmt = MediaFormat.audio ∧ onDisk fs webmFile then
      CloseStep.resolved ⟨true, some webmFile, none⟩
    else
      CloseStep.resolved
        ⟨false, none, some (("yt-dlp failed with code ") ++ toString code)⟩
  else CloseStep.pendingFileCheck

/-- The synchronous part of the worker's close handler: unregister the
handle (storing the record back), then resolve against the re-read
cancelled flag. -/
def workerOnCloseSync (now : Int) (sid : String) (h : ProcHandle) (code : Int)
    (stderrData : String) (fmt : MediaFormat) (fileName : String)
    (st : ServerState) : ServerState × CloseStep :=
  let p := getSessionData now sid st
  let d1 : SessionData := { p.1 with processes := p.1.processes.filter (fun q => q != h) }
  let st1 := putSession p.2 sid d1
  (st1, workerCloseResolve d1.cancelled code stderrData fmt fileName st1.fs)

/-- The delayed filesystem check of the worker: find the artifact, re-check
the cancelled flag before registering it, and on a cancellation delete the
artifact (behind an existence guard) and resolve with the cancellation
failure. -/
def workerFileCheck (now : Int) (sid : String) (fmt : MediaFormat)
    (fileName safeId : String) (st : ServerState) :
    ServerState × DlOutcome × List Event :=
  let expectedFileName := fileName ++ ("." ++ expectedExtension fmt)
  if onDisk st.fs expectedFileName then
    let p := getSessionData now sid st
    if p.1.cancelled then
      ({ p.2 with fs := unlink p.2.fs expectedFileName }, cancelledOutcome,
       [Event.deleteFile expectedFileName])
    else
      (putSession p.2 sid { p.1 with files := setAdd p.1.files expectedFileName },
       ⟨true, some expectedFileName, none⟩, [])
  else
    match findMatchingFile st.fs fmt fileName safeId with
    | some foundFile =>
      let p := getSessionData now sid st
      if p.1.cancelled then
        if onDisk p.2.fs foundFile then
          ({ p.2 with fs := unlink p.2.fs foundFile }, cancelledOutcome,
           [Event.deleteFile foundFile])
        else (p.2, cancelledOutcome, [])
      else
        (putSession p.2 sid { p.1 with files := setAdd p.1.files foundFile },
         ⟨true, some foundFile, none⟩, [])
    | none => (st, ⟨false, none, some ("Output file not found after download")⟩, [])

/-- The guarded deletion the worker performs on an already-located artifact:
unlink only behind the existence check. -/
def deleteIfExists (fs : FS) (name : String) : FS × List Event :=
  if onDisk fs name then (unlink fs name, [Event.deleteFile name]) else (fs, [])

/-! ## Batch orchestrator (processBatchDownload) -/

/-- One extracted playlist entry as the orchestrator consumes it. -/
structure PVideo where
  url : String
  title : String
  duration : Option Nat
deriving DecidableEq

/-- JavaScript string-or-default: the default replaces a missing or empty
text (the || operator on strings). -/
def jsOr (o : Option String) (dflt : String) : String :=
  match o with
  | none => dflt
  | some s => if s == "" then dflt else s

/-- padStart 2 with the zero character. -/
def pad2 (n : Nat) : String :=
  let s := toString n
  if s.length < 2 then ("0" ++ s) else s

/-- formatDuration of the source: Unknown for a missing or non-positive
duration, otherwise minutes and seconds, with an hour field when needed. -/
def formatDuration (seconds : Option Nat) : String :=
  match seconds with
  | none => "Unknown"
  | some s =>
    if s == 0 then "Unknown"
    else
      let hours := s / 3600
      let minutes := (s % 3600) / 60
      let secs := s % 60
      if 0 < hours then toString hours ++ (":" ++ pad2 minutes) ++ (":" ++ pad2 secs)
      else toString minutes ++ (":" ++ pad2 secs)

/-- The start message with the playlist info block. -/
def startMsg (sid : String) (total : Nat) (dur : String) : Msg :=
  { msgBase MType.start sid with
      total := some total,
      playlistTotalSongs := some total,
      playlistTotalDuration := some dur }

/-- The per-item progress message sent before each attempt. -/
def progressMsg (sid : String) (current total : Nat) (v : PVideo) : Msg :=
  { msgBase MType.progress sid with
      current := some current,
      total := some total,
      videoUrl := some v.url,
      videoTitle := some v.title,
      videoDuration := some (formatDuration v.duration) }

/-- The per-item success message sent after a successful attempt. -/
def successMsg (sid : String) (current total : Nat) (v : PVideo) (r : DlOutcome) : Msg :=
  { msgBase MType.success sid with
      current := some current,
      total := some total,
      videoUrl := some v.url,
      videoTitle := some v.title,
      fileName := r.fileName }

/-- The per-item error message sent after a failed attempt. -/
def itemErrorMsg (sid : String) (current total : Nat) (v : PVideo) (r : DlOutcome) : Msg :=
  { msgBase MType.error sid with
      current := some current,
      total := some total,
      videoUrl := some v.url,
      videoTitle := some v.title,
      error := some (jsOr r.error ("Download failed")) }

/-- The terminal complete message with the aggregate counters. -/
def completeMsg (sid : String) (total successful failed : Nat) : Msg :=
  { msgBase MType.complete sid with
      total := some total,
      successful := some successful,
      failed := some failed }

/-- The outcome message an item produces, by the success flag. -/
def outcomeMsg (sid : String) (current total : Nat) (v : PVideo) (r : DlOutcome) : Msg :=
  if r.success then successMsg sid current total v r
  else itemErrorMsg sid current total v r

/-- The sequential item loop of the orchestrator.  The flag argument gives
the value of the cancelled flag at each successive read: read 0 happens
before the start message, and iteration i (zero-based) reads it before the
item and again after the awaited download. -/
def batchLoop (sid : String) (total : Nat) (flag : Nat → Bool) :
    List (PVideo × DlOutcome) → Nat → Nat → Nat → List Msg
  | [], _, successful, failed => [completeMsg sid total successful failed]
  | (v, r) :: rest, i, successful, failed =>
    if flag (2 * i + 1) then [mkErrMsg sid ("Download cancelled by user")]
    else
      progressMsg sid (i + 1) total v ::
        (if flag (2 * i + 2) then []
         else if r.success then
           successMsg sid (i + 1) total v r ::
             batchLoop sid total flag rest (i + 1) (successful + 1) failed
         else
           itemErrorMsg sid (i + 1) total v r ::
             batchLoop sid total flag rest (i + 1) successful (failed + 1))

/-- processBatchDownload as the sequence of messages it hands to
sendWebSocketMessage, driven by the extracted item list, the per-item worker
outcomes, and the successive reads of the cancelled flag. -/
def processBatchDownload (sid : String) (videos : List PVideo)
    (results : List DlOutcome) (flag : Nat → Bool) : List Msg :=
  let total := videos.length
  if total == 0 then [mkErrMsg sid ("No videos found in playlist")]
  else if flag 0 then [mkErrMsg sid ("Download cancelled")]
  else
    let totalDuration := videos.foldl (fun s v => s + v.duration.getD 0) 0
    startMsg sid total (formatDuration (some totalDuration)) ::
      batchLoop sid total flag (videos.zip results) 0 0 0

/-! ## Filename sanitizer (sanitizeFilename) -/

/-- The characters the sanitizer strips (illegal in Windows file names). -/
def illegalFilenameChars : List Char :=
  ['<', '>', ':', '"', '/', '\\', '|', '?', '*']

/-- Membership in the stripped character set. -/
def isIllegalChar (c : Char) : Bool := illegalFilenameChars.contains c

/-- The JavaScript whitespace class used by the whitespace regex and trim. -/
def isJsSpace (c : Char) : Bool :=
  let n := c.toNat
  (9 ≤ n && n ≤ 13) || n == 32 || n == 160 || n == 5760 ||
    (8192 ≤ n && n ≤ 8202) || n == 8232 || n == 8233 || n == 8239 ||
    n == 8287 || n == 12288 || n == 65279

/-- Collapse every whitespace run to one space; the flag records whether the
previous character was whitespace. -/
def collapseWsAux : Bool → List Char → List Char
  | _, [] => []
  | prevWs, c :: cs =>
    if isJsSpace c then
      if prevWs then collapseWsAux true cs
      else ' ' :: collapseWsAux true cs
    else c :: collapseWsAux false cs

/-- The whitespace-normalisation replace of the source. -/
def collapseWs (l : List Char) : List Char := collapseWsAux false l

/-- String.prototype.trim over the character list. -/
def trimChars (l : List Char) : List Char :=
  ((l.dropWhile isJsSpace).reverse.dropWhile isJsSpace).reverse

/-- Strip illegal characters, normalise whitespace, trim. -/
def sanitizeCore (title : String) : List Char :=
  trimChars (collapseWs (title.data.filter (fun c => !isIllegalChar c)))

/-- The sanitized name after the over-length truncation and re-trim. -/
def sanitizeTrunc (title : String) (maxLength : Nat) : List Char :=
  let s := sanitizeCore title
  if maxLength < s.length then trimChars (s.take maxLength) else s

/-- sanitizeFilename of the source; the placeholder replaces an empty
result. -/
def sanitizeFilename (title : String) (maxLength : Nat) : String :=
  let s := sanitizeTrunc title maxLength
  if s.isEmpty then "untitled" else String.mk s

/-! ## WebSocket close handler -/

/-- The close handler of a subscribed connection: drop the association, then
auto-cancel only when the stored session still has a registered process or a
registered file. -/
def wsCloseHandler (now : Int) (sid : String) (st : ServerState) :
    ServerState × Bool :=
  let st1 := { st with wsOpen := st.wsOpen.filter (fun s => s != sid) }
  match st1.sessions sid with
  | some d =>
    if 0 < d.processes.length ∨ 0 < d.files.length then
      ((cancelSession now sid st1).1, true)
    else (st1, false)
  | none => (st1, false)

/-! ## Operation vocabulary over the session store -/

/-- Every state-changing entry point of the engine, for stating invariants
over arbitrary interleavings. -/
inductive Op where
  | getSession (now : Int) (sid : String)
  | cancel (now : Int) (sid : String)
  | wsClose (now : Int) (sid : String)
  | registerProcess (now : Int) (sid : String) (h : ProcHandle)
  | unregisterProcess (now : Int) (sid : String) (h : ProcHandle)
  | registerFile (now : Int) (sid : String) (f : String)
  | addPattern (now : Int) (sid : String) (pat : String)
  | workerClose (now : Int) (sid : String) (h : ProcHandle) (code : Int)
      (stderrData : String) (fmt : MediaFormat) (fileName : String)
  | workerCheck (now : Int) (sid : String) (fmt : MediaFormat)
      (fileName safeId : String)
  | retentionSweep (now : Int) (maxAgeMinutes : Int)
  | removal (sid : String)

/-- Whether the operation is the scheduled bookkeeping removal for the id. -/
def Op.removes (op : Op) (sid : String) : Bool :=
  match op with
  | Op.removal s => s == sid
  | _ => false

/-- The state transition of each operation, built from the definitions
above. -/
def step (op : Op) (st : ServerState) : ServerState :=
  match op with
  | Op.getSession now sid => (getSessionData now sid st).2
  | Op.cancel now sid => (cancelSession now sid st).1
  | Op.wsClose now sid => (wsCloseHandler now sid st).1
  | Op.registerProcess now sid h =>
    modifySession now sid (fun d => { d with processes := d.processes ++ [h] }) st
  | Op.unregisterProcess now sid h =>
    modifySession now sid
      (fun d => { d with processes := d.processes.filter (fun q => q != h) }) st
  | Op.registerFile now sid f =>
    modifySession now sid (fun d => { d with files := setAdd d.files f }) st
  | Op.addPattern now sid pat =>
    modifySession now sid
      (fun d => { d with expectedFilePatterns := setAdd d.expectedFilePatterns pat }) st
  | Op.workerClose now sid h code stderrData fmt fileName =>
    (workerOnCloseSync now sid h code stderrData fmt fileName st).1
  | Op.workerCheck now sid fmt fileName safeId =>
    (workerFileCheck now sid fmt fileName safeId st).1
  | Op.retentionSweep now maxAgeMinutes =>
    { st with fs := (cleanupOldFiles now maxAgeMinutes (st.fs.map Prod.fst) st.fs).1 }
  | Op.removal sid => fireRemoval sid st

/-! ## Named components of cancelSession, for stating its step structure -/

/-- The session record as cancelSession stores it back: cancelled set, every
handle carrying the killed flag. -/
def cancelledRecord (now : Int) (sid : String) (st : ServerState) : SessionData :=
  { (getSessionData now sid st).1 with
      cancelled := true,
      processes := (killProcesses (getSessionData now sid st).1.processes).1 }

/-- The registered-file deletion pass of cancelSession. -/
def regDelPass (now : Int) (sid : String) (st : ServerState) : FS × List Event :=
  deleteRegFiles (getSessionData now sid st).1.files (getSessionData now sid st).2.fs

/-- The heuristic sweep pass of cancelSession, run over the directory
listing taken after the registered deletions. -/
def sweepPass (now : Int) (sid : String) (st : ServerState) : FS × List Event :=
  sweepFiles (cancelledRecord now sid st) now
    ((regDelPass now sid st).1.map Prod.fst) (regDelPass now sid st).1

/-! ## Statement-side helpers for the batch orchestrator claims -/

/-- Number of items whose worker outcome is a success. -/
def countOk (l : List (PVideo × DlOutcome)) : Nat :=
  l.countP (fun x => x.2.success)

/-- Number of items whose worker outcome is a failure. -/
def countFail (l : List (PVideo × DlOutcome)) : Nat :=
  l.countP (fun x => !x.2.success)

/-- The progress/outcome pair sequence the spec promises for an
uncancelled batch, one pair per item, with one-based counters. -/
def expectedPairs (sid : String) (total : Nat) :
    Nat → List (PVideo × DlOutcome) → List Msg
  | _, [] => []
  | i, (v, r) :: rest =>
    progressMsg sid (i + 1) total v :: outcomeMsg sid (i + 1) total v r ::
      expectedPairs sid total (i + 1) rest

/-! ## Concrete states used by witnesses and counterexamples -/

/-- A server with no sessions, no files and no open sockets. -/
def emptyServer : ServerState := ⟨fun _ => none, [], [], [], []⟩

/-- A server with one open subscriber socket and nothing else. -/
def idleClientServer : ServerState := ⟨fun _ => none, [], ["s"], [], []⟩

/-- A server holding one session with a recorded name pattern and one
matching on-disk artifact. -/
def sweepExampleState : ServerState :=
  ⟨fun s => if s = "s" then some ⟨false, [], [], 0, ["song"]⟩ else none,
   [(("song.mp3" : String), (0 : Int))], [], [], []⟩

/-- Two concrete work items for exercising the batch orchestrator. -/
def wVideos : List PVideo := [⟨"u1", "t1", none⟩, ⟨"u2", "t2", none⟩]

/-- One successful and one failed worker outcome for the two items. -/
def wResults : List DlOutcome :=
  [⟨true, some ("a.mp3"), none⟩, ⟨false, none, some ("boom")⟩]

/-- A server whose session was cancelled while one handle is registered. -/
def workerStateA : ServerState :=
  ⟨fun s => if s = "s" then some ⟨true, [⟨7, false⟩], [], 0, []⟩ else none,
   [], [], [], []⟩

/-- A server whose session was cancelled after the worker exited, with the
produced artifact still on disk. -/
def workerStateB : ServerState :=
  ⟨fun s => if s = "s" then some ⟨true, [], [], 0, []⟩ else none,
   [(("title.mp3" : String), (0 : Int))], [], [], []⟩

/-! ## Basic facts about the store and the state helpers -/

theorem onDisk_unlink_self (fs : FS) (m : String) : onDisk (unlink fs m) m = false := by
  simp only [onDisk, unlink, List.any_eq_false]
  intro x hx
  have := List.of_mem_filter hx
  simp only [bne_iff_ne, ne_eq] at this
  simp [beq_iff_eq, this]

theorem onDisk_unlink_imp (fs : FS) (m g : String)
    (h : onDisk (unlink fs m) g = true) : onDisk fs g = true := by
  simp only [onDisk, unlink, List.any_eq_true] at h ⊢
  obtain ⟨x, hx, hp⟩ := h
  exact ⟨x, List.mem_of_mem_filter hx, hp⟩

theorem statMtime_none_of_not_onDisk (fs : FS) (g : String)
    (h : onDisk fs g = false) : statMtime fs g = none := by
  simp only [onDisk, List.any_eq_false] at h
  have hf : List.find? (fun p => p.1 == g) fs = none := List.find?_eq_none.mpr h
  simp [statMtime, hf]

theorem onDisk_of_statMtime_some (fs : FS) (g : String) (mt : Int)
    (h : statMtime fs g = some mt) : onDisk fs g = true := by
  cases hf : List.find? (fun p => (p.1 == g)) fs with
  | none => simp [statMtime, hf] at h
  | some x =>
    have hp := List.find?_some hf
    simp only [onDisk, List.any_eq_true]
    exact ⟨x, List.mem_of_find?_eq_some hf, hp⟩

theorem statMtime_unlink_ne (fs : FS) (m g : String) (h : g ≠ m) :
    statMtime (unlink fs m) g = statMtime fs g := by
  induction fs with
  | nil => rfl
  | cons x tl ih =>
    simp only [statMtime, unlink] at ih ⊢
    by_cases hxm : x.1 = m
    · have hne : (x.1 != m) = false := by simp [bne_iff_ne, hxm]
      have hxg : (x.1 == g) = false := by
        simp only [beq_eq_false_iff_ne, ne_eq, hxm]
        exact fun hmg => h hmg.symm
      simp only [List.filter_cons, hne, Bool.false_eq_true, if_false,
        List.find?_cons, hxg]
      exact ih
    · have hne : (x.1 != m) = true := by simp [bne_iff_ne, hxm]
      simp only [List.filter_cons, hne, if_true, List.find?_cons]
      cases hxg : (x.1 == g) with
      | true => rfl
      | false => exact ih

theorem statMtime_unlink_self (fs : FS) (m : String) :
    statMtime (unlink fs m) m = none :=
  statMtime_none_of_not_onDisk _ _ (onDisk_unlink_self fs m)

theorem onDisk_mem_names (fs : FS) (g : String) (h : onDisk fs g = true) :
    g ∈ fs.map Prod.fst := by
  simp only [onDisk, List.any_eq_true] at h
  obtain ⟨x, hx, hp⟩ := h
  simp only [beq_iff_eq] at hp
  exact List.mem_map.mpr ⟨x, hx, hp⟩

theorem putSession_sessions (st : ServerState) (sid : String) (d : SessionData)
    (s : String) :
    (putSession st sid d).sessions s = if s = sid then some d else st.sessions s := rfl

theorem sendWS_sessions (sid : String) (m : Msg) (st : ServerState) :
    (sendWebSocketMessage sid m st).sessions = st.sessions := by
  unfold sendWebSocketMessage
  split <;> rfl

theorem sendWS_fs (sid : String) (m : Msg) (st : ServerState) :
    (sendWebSocketMessage sid m st).fs = st.fs := by
  unfold sendWebSocketMessage
  split <;> rfl

theorem sendWS_pending (sid : String) (m : Msg) (st : ServerState) :
    (sendWebSocketMessage sid m st).pendingRemovals = st.pendingRemovals := by
  unfold sendWebSocketMessage
  split <;> rfl

theorem getSessionData_fs (now : Int) (sid : String) (st : ServerState) :
    (getSessionData now sid st).2.fs = st.fs := by
  unfold getSessionData
  cases st.sessions sid <;> rfl

theorem getSessionData_sessions_self (now : Int) (sid : String) (st : ServerState) :
    (getSessionData now sid st).2.sessions sid = some (getSessionData now sid st).1 := by
  unfold getSessionData
  cases h : st.sessions sid <;> simp [h]

theorem getSessionData_sessions_pres (now : Int) (sid sid' : String)
    (st : ServerState) (d : SessionData) (h : st.sessions sid = some d) :
    (getSessionData now sid' st).2.sessions sid = some d := by
  unfold getSessionData
  cases h' : st.sessions sid' with
  | some _ => exact h
  | none =>
    simp only
    by_cases he : sid = sid'
    · rw [he] at h; rw [h] at h'; cases h'
    · simp [he, h]

theorem getSessionData_of_stored (now : Int) (sid : String) (st : ServerState)
    (d : SessionData) (h : st.sessions sid = some d) :
    getSessionData now sid st = (d, st) := by
  unfold getSessionData
  rw [h]

/-! ## Facts about the registered-file deletion pass -/

theorem delreg_shrink (files : List String) (fs : FS) (g : String)
    (h : onDisk (deleteRegFiles files fs).1 g = true) : onDisk fs g = true := by
  induction files generalizing fs with
  | nil => exact h
  | cons f rest ih =>
    cases hd : onDisk fs f with
    | true =>
      simp only [deleteRegFiles, hd, if_true] at h
      exact onDisk_unlink_imp _ _ _ (ih _ h)
    | false =>
      simp [deleteRegFiles, hd] at h
      exact ih _ h

theorem delreg_stat_pres (files : List String) (fs : FS) (g : String)
    (h : g ∉ files) : statMtime (deleteRegFiles files fs).1 g = statMtime fs g := by
  induction files generalizing fs with
  | nil => rfl
  | cons f rest ih =>
    have hgf : g ≠ f := fun he => h (he ▸ List.mem_cons_self f rest)
    have hgr : g ∉ rest := fun hm => h (List.mem_cons_of_mem f hm)
    cases hd : onDisk fs f with
    | true =>
      simp only [deleteRegFiles, hd, if_true]
      rw [ih _ hgr, statMtime_unlink_ne _ _ _ hgf]
    | false =>
      simp only [deleteRegFiles, hd, Bool.false_eq_true, if_false]
      exact ih _ hgr

theorem delreg_clears (files : List String) (fs : FS) (g : String)
    (hg : g ∈ files) : onDisk (deleteRegFiles files fs).1 g = false := by
  induction files generalizing fs with
  | nil => cases hg
  | cons f rest ih =>
    rcases List.mem_cons.mp hg with he | hm
    · subst he
      cases hd : onDisk fs g with
      | true =>
        simp only [deleteRegFiles, hd, if_true]
        cases hb : onDisk (deleteRegFiles rest (unlink fs g)).1 g with
        | false => rfl
        | true =>
          have := delreg_shrink _ _ _ hb
          rw [onDisk_unlink_self] at this
          cases this
      | false =>
        simp only [deleteRegFiles, hd, Bool.false_eq_true, if_false]
        cases hb : onDisk (deleteRegFiles rest fs).1 g with
        | false => rfl
        | true =>
          have := delreg_shrink _ _ _ hb
          rw [this] at hd
          cases hd
    · cases hd : onDisk fs f with
      | true =>
        simp only [deleteRegFiles, hd, if_true]
        exact ih _ hm
      | false =>
        simp only [deleteRegFiles, hd, Bool.false_eq_true, if_false]
        exact ih _ hm

theorem delreg_complete (files : List String) (fs : FS) (g : String)
    (hg : g ∈ files) (hd : onDisk fs g = true) :
    Event.deleteFile g ∈ (deleteRegFiles files fs).2 := by
  induction files generalizing fs with
  | nil => cases hg
  | cons f rest ih =>
    rcases List.mem_cons.mp hg with he | hm
    · subst he
      simp only [deleteRegFiles, hd, if_true]
      exact List.mem_cons_self _ _
    · cases hdf : onDisk fs f with
      | true =>
        simp only [deleteRegFiles, hdf, if_true]
        by_cases hgf : g = f
        · subst hgf
          exact List.mem_cons_self _ _
        · refine List.mem_cons_of_mem _ (ih _ hm ?_)
          simp only [onDisk, unlink, List.any_eq_true] at hd ⊢
          obtain ⟨x, hx, hp⟩ := hd
          refine ⟨x, List.mem_filter.mpr ⟨hx, ?_⟩, hp⟩
          simp only [beq_iff_eq] at hp
          simp [bne_iff_ne, hp, hgf]
      | false =>
        simp only [deleteRegFiles, hdf, Bool.false_eq_true, if_false]
        exact ih _ hm hd

theorem delreg_events (files : List String) (fs : FS) (e : Event)
    (h : e ∈ (deleteRegFiles files fs).2) :
    ∃ g, e = Event.deleteFile g ∧ g ∈ files ∧ onDisk fs g = true := by
  induction files generalizing fs with
  | nil => cases h
  | cons f rest ih =>
    cases hd : onDisk fs f with
    | true =>
      simp only [deleteRegFiles, hd, if_true] at h
      rcases List.mem_cons.mp h with he | hm
      · exact ⟨f, he, List.mem_cons_self _ _, hd⟩
      · obtain ⟨g, hge, hgm, hgd⟩ := ih _ hm
        exact ⟨g, hge, List.mem_cons_of_mem _ hgm, onDisk_unlink_imp _ _ _ hgd⟩
    | false =>
      simp only [deleteRegFiles, hd, Bool.false_eq_true, if_false] at h
      obtain ⟨g, hge, hgm, hgd⟩ := ih _ h
      exact ⟨g, hge, List.mem_cons_of_mem _ hgm, hgd⟩

theorem delreg_noop (files : List String) (fs : FS)
    (h : ∀ g ∈ files, onDisk fs g = false) :
    deleteRegFiles files fs = (fs, []) := by
  induction files with
  | nil => rfl
  | cons f rest ih =>
    have hf := h f (List.mem_cons_self _ _)
    simp only [deleteRegFiles, hf, Bool.false_eq_true, if_false]
    exact ih (fun g hg => h g (List.mem_cons_of_mem _ hg))

/-! ## Facts about the heuristic sweep -/

theorem sweep_shrink (d : SessionData) (now : Int) (names : List String) (fs : FS)
    (g : String) (h : onDisk (sweepFiles d now names fs).1 g = true) :
    onDisk fs g = true := by
  induction names generalizing fs with
  | nil => exact h
  | cons n rest ih =>
    cases hc : d.files.contains n with
    | true =>
      simp only [sweepFiles, hc, if_true] at h
      exact ih _ h
    | false =>
      cases hs : statMtime fs n with
      | none =>
        simp only [sweepFiles, hc, Bool.false_eq_true, if_false, hs] at h
        exact ih _ h
      | some mt =>
        cases hcond : sweepCond d.expectedFilePatterns d.startTime now n mt with
        | true =>
          simp only [sweepFiles, hc, Bool.false_eq_true, if_false, hs,
            hcond, if_true] at h
          exact onDisk_unlink_imp _ _ _ (ih _ h)
        | false =>
          simp only [sweepFiles, hc, Bool.false_eq_true, if_false, hs, hcond] at h
          exact ih _ h

theorem sweep_stat_pres (d : SessionData) (now : Int) (names : List String)
    (fs : FS) (g : String)
    (h : onDisk (sweepFiles d now names fs).1 g = true) :
    statMtime (sweepFiles d now names fs).1 g = statMtime fs g := by
  induction names generalizing fs with
  | nil => rfl
  | cons n rest ih =>
    cases hc : d.files.contains n with
    | true =>
      simp only [sweepFiles, hc, if_true] at h ⊢
      exact ih _ h
    | false =>
      cases hs : statMtime fs n with
      | none =>
        simp only [sweepFiles, hc, Bool.false_eq_true, if_false, hs] at h ⊢
        exact ih _ h
      | some mt =>
        cases hcond : sweepCond d.expectedFilePatterns d.startTime now n mt with
        | true =>
          simp only [sweepFiles, hc, Bool.false_eq_true, if_false, hs,
            hcond, if_true] at h ⊢
          have hgn : g ≠ n := by
            intro he
            subst he
            have := sweep_shrink _ _ _ _ _ h
            rw [onDisk_unlink_self] at this
            cases this
          rw [ih _ h, statMtime_unlink_ne _ _ _ hgn]
        | false =>
          simp only [sweepFiles, hc, Bool.false_eq_true, if_false, hs, hcond] at h ⊢
          exact ih _ h

theorem sweep_events (d : SessionData) (now : Int) (names : List String)
    (fs : FS) (e : Event) (h : e ∈ (sweepFiles d now names fs).2) :
    ∃ g, e = Event.sweepDelete g ∧ d.files.contains g = false ∧
      sweepMatches d now fs g = true := by
  induction names generalizing fs with
  | nil => cases h
  | cons n rest ih =>
    cases hc : d.files.contains n with
    | true =>
      simp only [sweepFiles, hc, if_true] at h
      exact ih _ h
    | false =>
      cases hs : statMtime fs n with
      | none =>
        simp only [sweepFiles, hc, Bool.false_eq_true, if_false, hs] at h
        exact ih _ h
      | some mt =>
        cases hcond : sweepCond d.expectedFilePatterns d.startTime now n mt with
        | true =>
          simp only [sweepFiles, hc, Bool.false_eq_true, if_false, hs,
            hcond, if_true] at h
          rcases List.mem_cons.mp h with he | hm
          · refine ⟨n, he, hc, ?_⟩
            simp [sweepMatches, hs, hcond]
          · obtain ⟨g, hge, hgc, hgm⟩ := ih _ hm
            refine ⟨g, hge, hgc, ?_⟩
            simp only [sweepMatches] at hgm ⊢
            cases hsg : statMtime (unlink fs n) g with
            | none => rw [hsg] at hgm; cases hgm
            | some mtg =>
              have hgn : g ≠ n := by
                intro he2
                subst he2
                rw [statMtime_unlink_self] at hsg
                cases hsg
              rw [hsg] at hgm
              rw [← statMtime_unlink_ne fs n g hgn, hsg]
              exact hgm
        | false =>
          simp only [sweepFiles, hc, Bool.false_eq_true, if_false, hs, hcond] at h
          exact ih _ h

theorem sweep_survivor (d : SessionData) (now : Int) (names : List String)
    (fs : FS) (g : String) (hmem : g ∈ names)
    (h : onDisk (sweepFiles d now names fs).1 g = true) :
    d.files.contains g = true ∨
      sweepMatches d now (sweepFiles d now names fs).1 g = false := by
  induction names generalizing fs with
  | nil => cases hmem
  | cons n rest ih =>
    cases hc : d.files.contains n with
    | true =>
      simp only [sweepFiles, hc, if_true] at h ⊢
      rcases List.mem_cons.mp hmem with he | hm
      · exact Or.inl (he ▸ hc)
      · exact ih _ hm h
    | false =>
      cases hs : statMtime fs n with
      | none =>
        simp only [sweepFiles, hc, Bool.false_eq_true, if_false, hs] at h ⊢
        rcases List.mem_cons.mp hmem with he | hm
        · subst he
          have hpres := sweep_stat_pres d now rest fs g h
          refine Or.inr ?_
          simp [sweepMatches, hpres, hs]
        · exact ih _ hm h
      | some mt =>
        cases hcond : sweepCond d.expectedFilePatterns d.startTime now n mt with
        | true =>
          simp only [sweepFiles, hc, Bool.false_eq_true, if_false, hs,
            hcond, if_true] at h ⊢
          rcases List.mem_cons.mp hmem with he | hm
          · subst he
            have := sweep_shrink _ _ _ _ _ h
            rw [onDisk_unlink_self] at this
            cases this
          · exact ih _ hm h
        | false =>
          simp only [sweepFiles, hc, Bool.false_eq_true, if_false, hs, hcond] at h ⊢
          rcases List.mem_cons.mp hmem with he | hm
          · subst he
            have hpres := sweep_stat_pres d now rest fs g h
            refine Or.inr ?_
            simp only [sweepMatches, hpres, hs]
            exact hcond
          · exact ih _ hm h

theorem sweep_noop (d : SessionData) (now : Int) (names : List String) (fs : FS)
    (h : ∀ n ∈ names, d.files.contains n = true ∨ sweepMatches d now fs n = false) :
    sweepFiles d now names fs = (fs, []) := by
  induction names with
  | nil => rfl
  | cons n rest ih =>
    have hn := h n (List.mem_cons_self _ _)
    have hrest := fun g hg => h g (List.mem_cons_of_mem _ hg)
    cases hc : d.files.contains n with
    | true =>
      simp only [sweepFiles, hc, if_true]
      exact ih hrest
    | false =>
      cases hs : statMtime fs n with
      | none =>
        simp only [sweepFiles, hc, Bool.false_eq_true, if_false, hs]
        exact ih hrest
      | some mt =>
        rcases hn with hn | hn
        · rw [hn] at hc
          cases hc
        · simp only [sweepMatches, hs] at hn
          simp only [sweepFiles, hc, Bool.false_eq_true, if_false, hs, hn]
          exact ih hrest

/-! ## Facts about process termination -/

theorem killProcesses_all_killed (ps : List ProcHandle) :
    ∀ p ∈ (killProcesses ps).1, p.killed = true := by
  intro p hp
  simp only [killProcesses, List.mem_map] at hp
  obtain ⟨q, _, hq⟩ := hp
  rw [← hq]

theorem killProcesses_of_all_killed (ps : List ProcHandle)
    (h : ∀ p ∈ ps, p.killed = true) : killProcesses ps = (ps, []) := by
  simp only [killProcesses, Prod.mk.injEq]
  constructor
  · induction ps with
    | nil => rfl
    | cons q rest ih =>
      have hq := h q (List.mem_cons_self _ _)
      simp only [List.map_cons]
      rw [ih (fun p hp => h p (List.mem_cons_of_mem _ hp))]
      have : ({ q with killed := true } : ProcHandle) = q := by
        cases q with
        | mk pid k =>
          simp only at hq
          rw [hq]
      rw [this]
  · have : ps.filter (fun p => !p.killed) = [] := by
      rw [List.filter_eq_nil_iff]
      intro p hp
      simp [h p hp]
    rw [this, List.map_nil]

theorem killProcesses_idem (ps : List ProcHandle) :
    killProcesses (killProcesses ps).1 = ((killProcesses ps).1, []) :=
  killProcesses_of_all_killed _ (killProcesses_all_killed ps)

/-! ## Claim C5 -/

/-- C5: for a batch whose extracted work-item list is empty, the
orchestrator immediately publishes a single terminal error message and no
start, progress, success or complete message, whatever the worker outcomes
and the cancellation flag would have been. -/
theorem c5_empty_batch (sid : String) (results : List DlOutcome)
    (flag : Nat → Bool) :
    processBatchDownload sid [] results flag =
      [mkErrMsg sid ("No videos found in playlist")] := rfl

/-! ## Claim C8 -/

/-- C8: every deletion site of the system (the registered-file pass and the
heuristic sweep of cancelSession, the worker's cancelled-branch artifact
deletion, and the retention sweeper) tolerates a file already removed by a
concurrent actor: the guarded delete of a missing file changes nothing,
raises nothing, and processing of the remaining files continues unchanged. -/
theorem c8_guarded_deletes (fs : FS) (f : String) (rest : List String)
    (d : SessionData) (now maxAge : Int)
    (h : onDisk fs f = false) :
    deleteRegFiles (f :: rest) fs = deleteRegFiles rest fs
    ∧ sweepFiles d now (f :: rest) fs = sweepFiles d now rest fs
    ∧ deleteIfExists fs f = (fs, [])
    ∧ cleanupOldFiles now maxAge (f :: rest) fs =
        cleanupOldFiles now maxAge rest fs := by
  have hstat := statMtime_none_of_not_onDisk fs f h
  refine ⟨?_, ?_, ?_, ?_⟩
  · simp only [deleteRegFiles, h, Bool.false_eq_true, if_false]
  · cases hc : d.files.contains f with
    | true => simp only [sweepFiles, hc, if_true]
    | false => simp only [sweepFiles, hc, Bool.false_eq_true, if_false, hstat]
  · simp only [deleteIfExists, h, Bool.false_eq_true, if_false]
  · simp only [cleanupOldFiles, hstat]

/-- Witness for C8 at a concrete missing file and store. -/
theorem c8_guarded_deletes_witness :
    onDisk [(("kept.mp3" : String), (0 : Int))] ("gone.mp3") = false
    ∧ (deleteRegFiles (("gone.mp3") :: [("kept.mp3")]) [(("kept.mp3"), (0 : Int))] =
        deleteRegFiles [("kept.mp3")] [(("kept.mp3"), (0 : Int))]
      ∧ sweepFiles (emptySession 0) 0 (("gone.mp3") :: [("kept.mp3")])
          [(("kept.mp3"), (0 : Int))] =
          sweepFiles (emptySession 0) 0 [("kept.mp3")] [(("kept.mp3"), (0 : Int))]
      ∧ deleteIfExists [(("kept.mp3"), (0 : Int))] ("gone.mp3") =
          ([(("kept.mp3"), (0 : Int))], [])
      ∧ cleanupOldFiles 0 10 (("gone.mp3") :: [("kept.mp3")])
          [(("kept.mp3"), (0 : Int))] =
          cleanupOldFiles 0 10 [("kept.mp3")] [(("kept.mp3"), (0 : Int))]) :=
  ⟨by decide,
   c8_guarded_deletes [(("kept.mp3"), (0 : Int))] ("gone.mp3") [("kept.mp3")]
     (emptySession 0) 0 10 (by decide)⟩

/-! ## Claim C10 -/

/-- C10: when a subscribed connection closes, the session is auto-cancelled
exactly when its stored record still holds a registered process or a
registered file; a session with both sets empty, or no stored record, is
never cancelled by the disconnect. -/
theorem c10_close_autocancel (now : Int) (sid : String) (st : ServerState) :
    (wsCloseHandler now sid st).2 = true ↔
      ∃ d, st.sessions sid = some d ∧ (d.processes ≠ [] ∨ d.files ≠ []) := by
  simp only [wsCloseHandler]
  cases hs : st.sessions sid with
  | none => simp
  | some d =>
    by_cases hp : 0 < d.processes.length ∨ 0 < d.files.length
    · simp only [hp, if_true]
      constructor
      · intro _
        refine ⟨d, rfl, ?_⟩
        rcases hp with h | h
        · exact Or.inl (List.length_pos.mp h)
        · exact Or.inr (List.length_pos.mp h)
      · intro _
        trivial
    · simp only [hp, if_false]
      constructor
      · intro hf
        cases hf
      · rintro ⟨d', hd', hne⟩
        cases hd'
        exact absurd (hne.elim (fun h => Or.inl (List.length_pos.mpr h))
          (fun h => Or.inr (List.length_pos.mpr h))) hp


/-! ## The step structure of cancelSession -/

theorem cancelSession_trace (now : Int) (sid : String) (st : ServerState) :
    (cancelSession now sid st).2 =
      Event.setCancelled sid ::
        ((killProcesses (getSessionData now sid st).1.processes).2 ++
          (regDelPass now sid st).2 ++ (sweepPass now sid st).2 ++
          [Event.publish sid (cancelMsg sid), Event.scheduleRemoval sid]) := rfl

theorem cancelSession_fs (now : Int) (sid : String) (st : ServerState) :
    ((cancelSession now sid st).1).fs = (sweepPass now sid st).1 := by
  show (sendWebSocketMessage sid (cancelMsg sid) _).fs = _
  rw [sendWS_fs]
  rfl

theorem cancelSession_sessions (now : Int) (sid : String) (st : ServerState)
    (s : String) :
    ((cancelSession now sid st).1).sessions s =
      if s = sid then some (cancelledRecord now sid st)
      else (getSessionData now sid st).2.sessions s := by
  show (sendWebSocketMessage sid (cancelMsg sid) _).sessions s = _
  rw [sendWS_sessions]
  rfl

theorem cancelSession_pending (now : Int) (sid : String) (st : ServerState) :
    ((cancelSession now sid st).1).pendingRemovals =
      ((getSessionData now sid st).2).pendingRemovals ++ [sid] := by
  show (sendWebSocketMessage sid (cancelMsg sid) _).pendingRemovals ++ [sid] = _
  rw [sendWS_pending]
  rfl

/-! ## Claim C7 -/

theorem sweepMatches_media (d : SessionData) (now : Int) (fs : FS) (g : String)
    (h : sweepMatches d now fs g = true) : isMediaFile g = true := by
  simp only [sweepMatches] at h
  cases hs : statMtime fs g with
  | none =>
    rw [hs] at h
    cases h
  | some mt =>
    rw [hs] at h
    simp only [sweepCond, Bool.and_eq_true] at h
    exact h.2

/-- C7: the heuristic sweep of cancelSession deletes a file only when its
name carries an allow-listed media extension; whatever the session state,
the pattern hints and the timestamps, no sweep deletion ever names a
non-media file. -/
theorem c7_sweep_allowlist (now : Int) (sid : String) (st : ServerState)
    (f : String) (h : Event.sweepDelete f ∈ (cancelSession now sid st).2) :
    isMediaFile f = true := by
  rw [cancelSession_trace] at h
  rcases List.mem_cons.mp h with he | h1
  · cases he
  rcases List.mem_append.mp h1 with h2 | h5
  rotate_left
  · simp at h5
  rcases List.mem_append.mp h2 with h3 | h4
  rotate_left
  · obtain ⟨g, hge, _, hgm⟩ := sweep_events _ _ _ _ _ h4
    cases hge
    exact sweepMatches_media _ _ _ _ hgm
  rcases List.mem_append.mp h3 with hk | hd
  · rcases List.mem_map.mp hk with ⟨p, _, hp⟩
    cases hp
  · obtain ⟨g, hge, _, _⟩ := delreg_events _ _ _ hd
    cases hge

/-- Witness for C7: the sweep deletes song.mp3 in the concrete state, and
the name is on the allow-list. -/
theorem c7_sweep_allowlist_witness :
    Event.sweepDelete ("song.mp3") ∈ (cancelSession 0 ("s") sweepExampleState).2
    ∧ isMediaFile ("song.mp3") = true :=
  ⟨by decide, c7_sweep_allowlist 0 ("s") sweepExampleState ("song.mp3") (by decide)⟩

/-! ## Claim C9 -/

theorem mem_collapseWsAux (l : List Char) :
    ∀ (b : Bool) (c : Char), c ∈ collapseWsAux b l → c ∈ l ∨ c = ' ' := by
  induction l with
  | nil =>
    intro b c h
    cases h
  | cons a t ih =>
    intro b c h
    cases hw : isJsSpace a with
    | true =>
      rw [collapseWsAux, hw] at h
      simp only [if_true] at h
      cases b with
      | true =>
        simp only [if_true] at h
        rcases ih true c h with hm | hs
        · exact Or.inl (List.mem_cons_of_mem _ hm)
        · exact Or.inr hs
      | false =>
        simp only [Bool.false_eq_true, if_false] at h
        rcases List.mem_cons.mp h with he | hm
        · exact Or.inr he
        · rcases ih true c hm with hm2 | hs
          · exact Or.inl (List.mem_cons_of_mem _ hm2)
          · exact Or.inr hs
    | false =>
      rw [collapseWsAux, hw] at h
      simp only [Bool.false_eq_true, if_false] at h
      rcases List.mem_cons.mp h with he | hm
      · exact Or.inl (he ▸ List.mem_cons_self _ _)
      · rcases ih false c hm with hm2 | hs
        · exact Or.inl (List.mem_cons_of_mem _ hm2)
        · exact Or.inr hs

theorem mem_trimChars (l : List Char) (c : Char) (h : c ∈ trimChars l) :
    c ∈ l := by
  simp only [trimChars] at h
  rw [List.mem_reverse] at h
  have h1 := (List.dropWhile_sublist isJsSpace).mem h
  rw [List.mem_reverse] at h1
  exact (List.dropWhile_sublist isJsSpace).mem h1

theorem length_trimChars_le (l : List Char) : (trimChars l).length ≤ l.length := by
  simp only [trimChars, List.length_reverse]
  calc (List.dropWhile isJsSpace (l.dropWhile isJsSpace).reverse).length
      ≤ (l.dropWhile isJsSpace).reverse.length :=
        (List.dropWhile_sublist isJsSpace).length_le
    _ = (l.dropWhile isJsSpace).length := List.length_reverse _
    _ ≤ l.length := (List.dropWhile_sublist isJsSpace).length_le

theorem mem_sanitizeCore (t : String) (c : Char) (h : c ∈ sanitizeCore t) :
    isIllegalChar c = false := by
  have h1 := mem_trimChars _ _ h
  rcases mem_collapseWsAux _ false c h1 with h2 | h2
  · have h3 := List.of_mem_filter h2
    simp only [Bool.not_eq_true'] at h3
    exact h3
  · subst h2
    decide

theorem mem_sanitizeTrunc (t : String) (mx : Nat) (c : Char)
    (h : c ∈ sanitizeTrunc t mx) : isIllegalChar c = false := by
  simp only [sanitizeTrunc] at h
  by_cases hl : mx < (sanitizeCore t).length
  · rw [if_pos hl] at h
    have h1 := mem_trimChars _ _ h
    exact mem_sanitizeCore t c ((List.take_sublist _ _).mem h1)
  · rw [if_neg hl] at h
    exact mem_sanitizeCore t c h

theorem length_sanitizeTrunc_le (t : String) (mx : Nat) :
    (sanitizeTrunc t mx).length ≤ mx := by
  simp only [sanitizeTrunc]
  by_cases hl : mx < (sanitizeCore t).length
  · rw [if_pos hl]
    calc (trimChars ((sanitizeCore t).take mx)).length
        ≤ ((sanitizeCore t).take mx).length := length_trimChars_le _
      _ ≤ mx := by rw [List.length_take]; exact Nat.min_le_left _ _
  · rw [if_neg hl]
    omega

/-- C9 as amended: sanitizeFilename at the default maximum length yields a
name free of the illegal characters, of length at most 200, never empty, and
falls back to the placeholder whenever stripping, normalising, trimming and
truncating yields the empty string.  (The converse of the fallback clause
does not hold, see the counterexample.) -/
theorem c9_sanitize_guarantees (t : String) :
    ((sanitizeFilename t 200).data.all (fun c => !isIllegalChar c)) = true
    ∧ (sanitizeFilename t 200).length ≤ 200
    ∧ sanitizeFilename t 200 ≠ ""
    ∧ ((!(sanitizeTrunc t 200).isEmpty ||
        (sanitizeFilename t 200 == "untitled")) = true) := by
  cases he : (sanitizeTrunc t 200).isEmpty with
  | true =>
    have hf : sanitizeFilename t 200 = "untitled" := by
      simp [sanitizeFilename, he]
    rw [hf]
    refine ⟨by decide, by decide, by decide, ?_⟩
    simp [he]
  | false =>
    have hne : sanitizeTrunc t 200 ≠ [] := by
      intro h0
      rw [h0] at he
      cases he
    have hf : sanitizeFilename t 200 = String.mk (sanitizeTrunc t 200) := by
      simp [sanitizeFilename, he]
    rw [hf]
    refine ⟨?_, ?_, ?_, ?_⟩
    · rw [List.all_eq_true]
      intro c hc
      have := mem_sanitizeTrunc t 200 c hc
      simp [this]
    · show (sanitizeTrunc t 200).length ≤ 200
      exact length_sanitizeTrunc_le t 200
    · intro h0
      apply hne
      have := congrArg String.data h0
      exact this
    · simp [he]

/-- Counterexample for C9 as stated: on the input untitled, the sanitizer
returns the placeholder name even though the sanitisation pipeline is not
empty, so the placeholder does not appear exactly when the pipeline is
empty. -/
theorem c9_counterexample :
    sanitizeFilename ("untitled") 200 = "untitled"
    ∧ sanitizeTrunc ("untitled") 200 ≠ [] := by
  constructor
  · decide
  · decide

/-! ## Claim C1 -/

theorem countOk_add_countFail (l : List (PVideo × DlOutcome)) :
    countOk l + countFail l = l.length := by
  induction l with
  | nil => rfl
  | cons x rest ih =>
    simp only [countOk, countFail, List.countP_cons, List.length_cons] at ih ⊢
    cases hx : x.2.success <;> simp [hx] <;> omega

theorem batchLoop_no_cancel (sid : String) (total : Nat)
    (l : List (PVideo × DlOutcome)) :
    ∀ (i s f : Nat),
      batchLoop sid total (fun _ => false) l i s f =
        expectedPairs sid total i l ++
          [completeMsg sid total (s + countOk l) (f + countFail l)] := by
  induction l with
  | nil =>
    intro i s f
    simp [batchLoop, expectedPairs, countOk, countFail]
  | cons x rest ih =>
    intro i s f
    obtain ⟨v, r⟩ := x
    cases hr : r.success with
    | true =>
      have hok : countOk ((v, r) :: rest) = countOk rest + 1 := by
        simp [countOk, List.countP_cons, hr]
      have hfl : countFail ((v, r) :: rest) = countFail rest := by
        simp [countFail, List.countP_cons, hr]
      rw [hok, hfl]
      simp only [batchLoop, Bool.false_eq_true, if_false, hr, if_true]
      rw [ih]
      simp only [expectedPairs, outcomeMsg, hr, if_true]
      have harith : s + (countOk rest + 1) = s + 1 + countOk rest := by omega
      rw [harith]
      simp
    | false =>
      have hok : countOk ((v, r) :: rest) = countOk rest := by
        simp [countOk, List.countP_cons, hr]
      have hfl : countFail ((v, r) :: rest) = countFail rest + 1 := by
        simp [countFail, List.countP_cons, hr]
      rw [hok, hfl]
      simp only [batchLoop, Bool.false_eq_true, if_false, hr]
      rw [ih]
      simp only [expectedPairs, outcomeMsg, hr, Bool.false_eq_true, if_false]
      have harith : f + (countFail rest + 1) = f + 1 + countFail rest := by omega
      rw [harith]
      simp

theorem countP_expectedPairs (sid : String) (total : Nat)
    (l : List (PVideo × DlOutcome)) :
    ∀ i, (expectedPairs sid total i l).countP
        (fun m => m.type == MType.progress) = l.length := by
  induction l with
  | nil => intro i; rfl
  | cons x rest ih =>
    intro i
    obtain ⟨v, r⟩ := x
    simp only [expectedPairs, List.countP_cons, List.length_cons]
    rw [ih]
    have hp : ((progressMsg sid (i + 1) total v).type == MType.progress) = true := rfl
    have ho : ((outcomeMsg sid (i + 1) total v r).type == MType.progress) = false := by
      simp only [outcomeMsg]
      cases hr : r.success with
      | true => simp [hr, successMsg, msgBase]
      | false => simp [hr, itemErrorMsg, msgBase]
    rw [hp, ho]
    simp

/-- C1: for a batch of N items (N at least one) whose worker outcomes are
given and whose session is never cancelled, the orchestrator publishes the
start message, then exactly one progress message per item immediately
followed by exactly one success-or-error message carrying the one-based
index and the fixed total, and after the last pair exactly one complete
message whose successful and failed counters sum to N; in particular the
trace carries exactly N progress messages. -/
theorem c1_batch_pairs (sid : String) (videos : List PVideo)
    (results : List DlOutcome) (hlen : results.length = videos.length)
    (hpos : 1 ≤ videos.length) :
    processBatchDownload sid videos results (fun _ => false) =
      startMsg sid videos.length
          (formatDuration (some (videos.foldl (fun s v => s + v.duration.getD 0) 0))) ::
        (expectedPairs sid videos.length 0 (videos.zip results) ++
          [completeMsg sid videos.length (countOk (videos.zip results))
            (countFail (videos.zip results))])
    ∧ countOk (videos.zip results) + countFail (videos.zip results) = videos.length
    ∧ (processBatchDownload sid videos results (fun _ => false)).countP
        (fun m => m.type == MType.progress) = videos.length := by
  have hzlen : (videos.zip results).length = videos.length := by
    rw [List.length_zip, hlen, Nat.min_self]
  have h0 : (videos.length == 0) = false := by
    cases hv : videos.length with
    | zero => omega
    | succ k => rfl
  have htrace : processBatchDownload sid videos results (fun _ => false) =
      startMsg sid videos.length
          (formatDuration (some (videos.foldl (fun s v => s + v.duration.getD 0) 0))) ::
        (expectedPairs sid videos.length 0 (videos.zip results) ++
          [completeMsg sid videos.length (countOk (videos.zip results))
            (countFail (videos.zip results))]) := by
    simp only [processBatchDownload, h0, Bool.false_eq_true, if_false]
    rw [batchLoop_no_cancel]
    simp
  refine ⟨htrace, ?_, ?_⟩
  · rw [countOk_add_countFail, hzlen]
  · rw [htrace]
    rw [List.countP_cons]
    have hstart : ((startMsg sid videos.length
        (formatDuration (some (videos.foldl (fun s v => s + v.duration.getD 0) 0)))).type
          == MType.progress) = false := rfl
    rw [List.countP_append, countP_expectedPairs, hzlen, hstart]
    simp [List.countP_cons, completeMsg, msgBase]

/-- Witness for C1 at a concrete two-item batch with one success and one
failure. -/
theorem c1_batch_pairs_witness :
    processBatchDownload ("s") wVideos wResults (fun _ => false) =
      startMsg ("s") wVideos.length
          (formatDuration (some (wVideos.foldl (fun s v => s + v.duration.getD 0) 0))) ::
        (expectedPairs ("s") wVideos.length 0 (wVideos.zip wResults) ++
          [completeMsg ("s") wVideos.length (countOk (wVideos.zip wResults))
            (countFail (wVideos.zip wResults))])
    ∧ countOk (wVideos.zip wResults) + countFail (wVideos.zip wResults) =
        wVideos.length
    ∧ (processBatchDownload ("s") wVideos wResults (fun _ => false)).countP
        (fun m => m.type == MType.progress) = wVideos.length :=
  c1_batch_pairs ("s") wVideos wResults rfl (by decide)

/-! ## Claim C2 -/

theorem getSessionData_pending (now : Int) (sid : String) (st : ServerState) :
    (getSessionData now sid st).2.pendingRemovals = st.pendingRemovals := by
  unfold getSessionData
  cases st.sessions sid <;> rfl

theorem contains_iff_mem (l : List String) (x : String) :
    l.contains x = true ↔ x ∈ l := List.elem_iff

theorem sweepMatches_congr (d : SessionData) (now : Int) (fs1 fs2 : FS)
    (g : String) (h : statMtime fs1 g = statMtime fs2 g) :
    sweepMatches d now fs1 g = sweepMatches d now fs2 g := by
  simp [sweepMatches, h]

/-- C2: one cancelSession call performs, in this order: the cancelled flag
is set; a termination signal goes to every not-yet-signalled handle of the
session; every registered file still on disk is deleted (and none of them
remains on disk afterwards); the heuristic sweep deletes only unregistered
names that match the recorded pattern or the bounded session window; exactly
one cancellation message is published; and the bookkeeping removal is
scheduled while the cancelled flag still reads true. -/
theorem c2_cancel_steps (now : Int) (sid : String) (st : ServerState) :
    ∃ kills dels sweeps,
      (cancelSession now sid st).2 =
        Event.setCancelled sid ::
          (kills ++ dels ++ sweeps ++
            [Event.publish sid (cancelMsg sid), Event.scheduleRemoval sid])
      ∧ kills = (((getSessionData now sid st).1.processes.filter
          (fun p => !p.killed)).map (fun p => Event.kill p.pid))
      ∧ dels.all (fun e => match e with
          | Event.deleteFile g =>
            (getSessionData now sid st).1.files.contains g && onDisk st.fs g
          | _ => false) = true
      ∧ (getSessionData now sid st).1.files.all
          (fun g => !onDisk st.fs g || dels.contains (Event.deleteFile g)) = true
      ∧ (getSessionData now sid st).1.files.all
          (fun g => !onDisk ((cancelSession now sid st).1).fs g) = true
      ∧ sweeps.all (fun e => match e with
          | Event.sweepDelete g =>
            !(getSessionData now sid st).1.files.contains g &&
              sweepMatches (cancelledRecord now sid st) now st.fs g
          | _ => false) = true
      ∧ isCancelled ((cancelSession now sid st).1) sid = true
      ∧ ((cancelSession now sid st).1).pendingRemovals.contains sid = true := by
  have hfs : (getSessionData now sid st).2.fs = st.fs := getSessionData_fs now sid st
  refine ⟨_, _, _, cancelSession_trace now sid st, rfl, ?_, ?_, ?_, ?_, ?_, ?_⟩
  · rw [List.all_eq_true]
    intro e he
    obtain ⟨g, hge, hgm, hgd⟩ := delreg_events _ _ _ he
    subst hge
    rw [hfs] at hgd
    simp only [Bool.and_eq_true]
    exact ⟨(contains_iff_mem _ _).mpr hgm, hgd⟩
  · rw [List.all_eq_true]
    intro g hg
    cases hd : onDisk st.fs g with
    | false => simp
    | true =>
      have hmem : Event.deleteFile g ∈ (regDelPass now sid st).2 :=
        delreg_complete _ _ _ hg (by rw [hfs]; exact hd)
      simp only [Bool.or_eq_true]
      refine Or.inr ?_
      exact List.elem_iff.mpr hmem
  · rw [List.all_eq_true]
    intro g hg
    rw [cancelSession_fs]
    cases hd : onDisk (sweepPass now sid st).1 g with
    | false => simp
    | true =>
      have h1 := sweep_shrink _ _ _ _ _ hd
      have h2 : onDisk (regDelPass now sid st).1 g = false :=
        delreg_clears (getSessionData now sid st).1.files
          (getSessionData now sid st).2.fs g hg
      rw [h2] at h1
      cases h1
  · rw [List.all_eq_true]
    intro e he
    obtain ⟨g, hge, hgc, hgm⟩ := sweep_events _ _ _ _ _ he
    subst hge
    have hgc' : (getSessionData now sid st).1.files.contains g = false := hgc
    have hgnot : g ∉ (getSessionData now sid st).1.files := by
      intro hm
      rw [(contains_iff_mem _ _).mpr hm] at hgc'
      cases hgc'
    have hstat : statMtime (regDelPass now sid st).1 g = statMtime st.fs g := by
      have h4 : statMtime (regDelPass now sid st).1 g =
          statMtime (getSessionData now sid st).2.fs g :=
        delreg_stat_pres _ _ _ hgnot
      rw [h4, hfs]
    rw [sweepMatches_congr _ _ _ _ _ hstat] at hgm
    simp only [Bool.and_eq_true]
    refine ⟨?_, hgm⟩
    rw [hgc']
    rfl
  · simp [isCancelled, cancelSession_sessions, cancelledRecord]
  · rw [cancelSession_pending, getSessionData_pending]
    rw [contains_iff_mem]
    exact List.mem_append.mpr (Or.inr (List.mem_singleton.mpr rfl))

/-! ## Claim C4 -/

theorem onDisk_of_mem_names (fs : FS) (g : String) (h : g ∈ fs.map Prod.fst) :
    onDisk fs g = true := by
  simp only [List.mem_map] at h
  obtain ⟨x, hx, he⟩ := h
  simp only [onDisk, List.any_eq_true]
  exact ⟨x, hx, by simp [he]⟩

/-- Counterexample for C4 as stated: with a subscriber still connected, two
cancel calls on the same session deliver the cancellation message twice, so
two calls do not produce at most one cancellation message in total. -/
theorem c4_counterexample :
    ((cancelSession 0 ("s") ((cancelSession 0 ("s") idleClientServer).1)).1).sent =
      [(("s"), cancelMsg ("s")), (("s"), cancelMsg ("s"))] := by
  decide

/-- C4 as amended: a second cancel call on an already-cancelled session is
harmless — it raises nothing, signals no process again, deletes no file
(registered or swept), and performs only the flag write, one more
cancellation publish and the removal scheduling; thus each call publishes
exactly one cancellation message rather than at most one in total. -/
theorem c4_second_cancel (now : Int) (sid : String) (st : ServerState) :
    (cancelSession now sid ((cancelSession now sid st).1)).2 =
      [Event.setCancelled sid, Event.publish sid (cancelMsg sid),
       Event.scheduleRemoval sid] := by
  have h1 : ((cancelSession now sid st).1).sessions sid =
      some (cancelledRecord now sid st) := by
    rw [cancelSession_sessions]
    simp
  have hget : getSessionData now sid ((cancelSession now sid st).1) =
      (cancelledRecord now sid st, (cancelSession now sid st).1) :=
    getSessionData_of_stored _ _ _ _ h1
  have hfiles : ∀ g ∈ (cancelledRecord now sid st).files,
      onDisk ((cancelSession now sid st).1).fs g = false := by
    intro g hg
    rw [cancelSession_fs]
    cases hb : onDisk (sweepPass now sid st).1 g with
    | false => rfl
    | true =>
      have h2 := sweep_shrink _ _ _ _ _ hb
      have h3 : onDisk (regDelPass now sid st).1 g = false :=
        delreg_clears (getSessionData now sid st).1.files
          (getSessionData now sid st).2.fs g hg
      rw [h3] at h2
      cases h2
  have hreg2 : deleteRegFiles (cancelledRecord now sid st).files
      ((cancelSession now sid st).1).fs = (((cancelSession now sid st).1).fs, []) :=
    delreg_noop _ _ hfiles
  have hkills : (killProcesses
      (getSessionData now sid ((cancelSession now sid st).1)).1.processes).2 = [] := by
    rw [hget]
    exact congrArg Prod.snd (killProcesses_idem (getSessionData now sid st).1.processes)
  have hreg2' : (regDelPass now sid ((cancelSession now sid st).1)).2 = [] := by
    unfold regDelPass
    rw [hget]
    rw [hreg2]
  have hrec : cancelledRecord now sid ((cancelSession now sid st).1) =
      { cancelledRecord now sid st with
          cancelled := true,
          processes := (killProcesses (cancelledRecord now sid st).processes).1 } := by
    unfold cancelledRecord
    rw [hget]
    rfl
  have hsweep2 : (sweepPass now sid ((cancelSession now sid st).1)).2 = [] := by
    have hrd : regDelPass now sid ((cancelSession now sid st).1) =
        (((cancelSession now sid st).1).fs, []) := by
      unfold regDelPass
      rw [hget]
      exact hreg2
    show (sweepFiles (cancelledRecord now sid ((cancelSession now sid st).1)) now
        ((regDelPass now sid ((cancelSession now sid st).1)).1.map Prod.fst)
        (regDelPass now sid ((cancelSession now sid st).1)).1).2 = []
    rw [hrd, cancelSession_fs]
    have hcond : ∀ n ∈ (sweepPass now sid st).1.map Prod.fst,
        (cancelledRecord now sid ((cancelSession now sid st).1)).files.contains n = true
        ∨ sweepMatches (cancelledRecord now sid ((cancelSession now sid st).1)) now
            (sweepPass now sid st).1 n = false := by
      intro n hn
      have hdisk : onDisk (sweepPass now sid st).1 n = true :=
        onDisk_of_mem_names _ _ hn
      have hdisk2 : onDisk (sweepFiles (cancelledRecord now sid st) now
          ((regDelPass now sid st).1.map Prod.fst) (regDelPass now sid st).1).1 n =
          true := hdisk
      have hnames : n ∈ (regDelPass now sid st).1.map Prod.fst :=
        onDisk_mem_names _ _ (sweep_shrink _ _ _ _ _ hdisk2)
      have hsurv := sweep_survivor (cancelledRecord now sid st) now
        ((regDelPass now sid st).1.map Prod.fst) (regDelPass now sid st).1 n
        hnames hdisk2
      rcases hsurv with hc | hm
      · refine Or.inl ?_
        rw [hrec]
        exact hc
      · refine Or.inr ?_
        rw [hrec]
        exact hm
    have hnoop := sweep_noop (cancelledRecord now sid ((cancelSession now sid st).1))
      now ((sweepPass now sid st).1.map Prod.fst) (sweepPass now sid st).1 hcond
    rw [hnoop]
  rw [cancelSession_trace, hkills, hreg2', hsweep2]
  rfl

/-! ## Claim C6 -/

/-- Counterexample for C6 as stated: cancel a session (the flag reads true),
let the scheduled bookkeeping removal fire, and the next getSessionData on
the same id recreates a fresh record whose cancelled flag reads false
again. -/
theorem c6_counterexample :
    isCancelled ((cancelSession 0 ("s") emptyServer).1) ("s") = true
    ∧ (getSessionData 1 ("s")
        (fireRemoval ("s") ((cancelSession 0 ("s") emptyServer).1))).1.cancelled =
        false := by
  constructor
  · decide
  · decide

theorem modifySession_cancelled (now : Int) (sid sid' : String)
    (f : SessionData → SessionData) (hf : ∀ x, (f x).cancelled = x.cancelled)
    (st : ServerState) (d : SessionData) (h : st.sessions sid = some d)
    (hc : d.cancelled = true) :
    ∃ d', (modifySession now sid' f st).sessions sid = some d' ∧
      d'.cancelled = true := by
  unfold modifySession
  by_cases he : sid = sid'
  · subst he
    rw [getSessionData_of_stored now sid st d h]
    refine ⟨f d, ?_, ?_⟩
    · rw [putSession_sessions]
      simp
    · rw [hf d]
      exact hc
  · refine ⟨d, ?_, hc⟩
    rw [putSession_sessions, if_neg he]
    exact getSessionData_sessions_pres now sid sid' st d h

theorem cancel_preserves_cancelled (now : Int) (sid sid' : String)
    (st : ServerState) (d : SessionData) (h : st.sessions sid = some d)
    (hc : d.cancelled = true) :
    ∃ d', ((cancelSession now sid' st).1).sessions sid = some d' ∧
      d'.cancelled = true := by
  rw [cancelSession_sessions]
  by_cases he : sid = sid'
  · exact ⟨cancelledRecord now sid' st, by simp [he], rfl⟩
  · refine ⟨d, ?_, hc⟩
    rw [if_neg he]
    exact getSessionData_sessions_pres now sid sid' st d h

theorem workerOnCloseSync_state (now : Int) (sid : String) (h : ProcHandle)
    (code : Int) (stderrData : String) (fmt : MediaFormat) (fileName : String)
    (st : ServerState) :
    (workerOnCloseSync now sid h code stderrData fmt fileName st).1 =
      putSession (getSessionData now sid st).2 sid
        { (getSessionData now sid st).1 with
            processes :=
              (getSessionData now sid st).1.processes.filter (fun q => q != h) } :=
  rfl

theorem workerFileCheck_cancelled_pres (now : Int) (sid sid' : String)
    (fmt : MediaFormat) (fileName safeId : String) (st : ServerState)
    (d : SessionData) (hstored : st.sessions sid = some d)
    (hcanc : d.cancelled = true) :
    ∃ d', ((workerFileCheck now sid' fmt fileName safeId st).1).sessions sid =
      some d' ∧ d'.cancelled = true := by
  cases hd : onDisk st.fs (fileName ++ ("." ++ expectedExtension fmt)) with
  | true =>
    simp only [workerFileCheck, hd, if_true]
    cases hpc : (getSessionData now sid' st).1.cancelled with
    | true =>
      simp only [hpc, if_true]
      exact ⟨d, getSessionData_sessions_pres now sid sid' st d hstored, hcanc⟩
    | false =>
      simp only [hpc, Bool.false_eq_true, if_false]
      by_cases he : sid = sid'
      · subst he
        rw [getSessionData_of_stored now sid st d hstored] at hpc
        rw [hcanc] at hpc
        cases hpc
      · refine ⟨d, ?_, hcanc⟩
        rw [putSession_sessions, if_neg he]
        exact getSessionData_sessions_pres now sid sid' st d hstored
  | false =>
    simp only [workerFileCheck, hd, Bool.false_eq_true, if_false]
    cases hfind : findMatchingFile st.fs fmt fileName safeId with
    | some g =>
      simp only [hfind]
      cases hpc : (getSessionData now sid' st).1.cancelled with
      | true =>
        simp only [hpc, if_true]
        cases hdisk : onDisk (getSessionData now sid' st).2.fs g with
        | true =>
          simp only [hdisk, if_true]
          exact ⟨d, getSessionData_sessions_pres now sid sid' st d hstored, hcanc⟩
        | false =>
          simp only [hdisk, Bool.false_eq_true, if_false]
          exact ⟨d, getSessionData_sessions_pres now sid sid' st d hstored, hcanc⟩
      | false =>
        simp only [hpc, Bool.false_eq_true, if_false]
        by_cases he : sid = sid'
        · subst he
          rw [getSessionData_of_stored now sid st d hstored] at hpc
          rw [hcanc] at hpc
          cases hpc
        · refine ⟨d, ?_, hcanc⟩
          rw [putSession_sessions, if_neg he]
          exact getSessionData_sessions_pres now sid sid' st d hstored
    | none =>
      simp only [hfind]
      exact ⟨d, hstored, hcanc⟩

/-- C6 as amended: the cancelled flag is monotonic for as long as the
session's bookkeeping record exists — every engine operation other than the
scheduled bookkeeping removal for that id preserves a stored record with
cancelled true; only after the removal fires can getSessionData recreate a
record whose flag reads false. -/
theorem c6_monotonic_until_removal (op : Op) (st : ServerState) (sid : String)
    (d : SessionData) (hstored : st.sessions sid = some d)
    (hcanc : d.cancelled = true) (hnor : op.removes sid = false) :
    ∃ d', (step op st).sessions sid = some d' ∧ d'.cancelled = true := by
  cases op with
  | getSession now' sid' =>
    exact ⟨d, getSessionData_sessions_pres now' sid sid' st d hstored, hcanc⟩
  | cancel now' sid' =>
    exact cancel_preserves_cancelled now' sid sid' st d hstored hcanc
  | wsClose now' sid' =>
    show ∃ d', ((wsCloseHandler now' sid' st).1).sessions sid = some d' ∧
      d'.cancelled = true
    simp only [wsCloseHandler]
    cases hs : st.sessions sid' with
    | none => exact ⟨d, hstored, hcanc⟩
    | some d2 =>
      by_cases hp : 0 < d2.processes.length ∨ 0 < d2.files.length
      · simp only [hp, if_true]
        exact cancel_preserves_cancelled now' sid sid' _ d hstored hcanc
      · simp only [hp, if_false]
        exact ⟨d, hstored, hcanc⟩
  | registerProcess now' sid' h =>
    exact modifySession_cancelled now' sid sid'
      (fun d0 => { d0 with processes := d0.processes ++ [h] })
      (fun x => rfl) st d hstored hcanc
  | unregisterProcess now' sid' h =>
    exact modifySession_cancelled now' sid sid'
      (fun d0 => { d0 with processes := d0.processes.filter (fun q => q != h) })
      (fun x => rfl) st d hstored hcanc
  | registerFile now' sid' f =>
    exact modifySession_cancelled now' sid sid'
      (fun d0 => { d0 with files := setAdd d0.files f })
      (fun x => rfl) st d hstored hcanc
  | addPattern now' sid' pat =>
    exact modifySession_cancelled now' sid sid'
      (fun d0 => { d0 with expectedFilePatterns := setAdd d0.expectedFilePatterns pat })
      (fun x => rfl) st d hstored hcanc
  | workerClose now' sid' h code stderrData fmt fileName =>
    show ∃ d', ((workerOnCloseSync now' sid' h code stderrData fmt fileName st).1).sessions
      sid = some d' ∧ d'.cancelled = true
    rw [workerOnCloseSync_state]
    by_cases he : sid = sid'
    · subst he
      rw [getSessionData_of_stored now' sid st d hstored]
      refine ⟨{ d with processes := d.processes.filter (fun q => q != h) }, ?_, ?_⟩
      · rw [putSession_sessions]
        simp
      · exact hcanc
    · refine ⟨d, ?_, hcanc⟩
      rw [putSession_sessions, if_neg he]
      exact getSessionData_sessions_pres now' sid sid' st d hstored
  | workerCheck now' sid' fmt fileName safeId =>
    exact workerFileCheck_cancelled_pres now' sid sid' fmt fileName safeId st d
      hstored hcanc
  | retentionSweep now' maxAgeMinutes =>
    exact ⟨d, hstored, hcanc⟩
  | removal sid' =>
    have hne : sid ≠ sid' := by
      simp only [Op.removes] at hnor
      intro he
      subst he
      simp at hnor
    show ∃ d', (fireRemoval sid' st).sessions sid = some d' ∧ d'.cancelled = true
    refine ⟨d, ?_, hcanc⟩
    simp only [fireRemoval]
    rw [if_neg hne]
    exact hstored

/-- Witness for C6 as amended: registering a file on a cancelled session
keeps the stored flag true. -/
theorem c6_monotonic_until_removal_witness :
    ∃ d', (step (Op.registerFile 0 ("s") ("a.mp3"))
        ((cancelSession 0 ("s") emptyServer).1)).sessions ("s") = some d'
      ∧ d'.cancelled = true :=
  c6_monotonic_until_removal (Op.registerFile 0 ("s") ("a.mp3"))
    ((cancelSession 0 ("s") emptyServer).1) ("s") ⟨true, [], [], 0, []⟩
    (by decide) rfl rfl

/-! ## Claim C3 -/

theorem workerCloseResolve_cancelled (code : Int) (stderrData : String)
    (fmt : MediaFormat) (fileName : String) (fs : FS) (c : Bool)
    (hc : c = true) :
    workerCloseResolve c code stderrData fmt fileName fs =
      CloseStep.resolved cancelledOutcome := by
  rw [hc]
  rfl

theorem findMatching_onDisk (fs : FS) (fmt : MediaFormat)
    (fileName safeId g : String)
    (h : findMatchingFile fs fmt fileName safeId = some g) :
    onDisk fs g = true := by
  simp only [findMatchingFile] at h
  cases hl : ((fs.map Prod.fst).filter (fun f =>
      (strStarts f fileName || strStarts f safeId) && !(strEnds f (".mhtml")) &&
      (allowedExtensions fmt).any (fun ext => strEnds f ext))) with
  | nil =>
    rw [hl] at h
    cases h
  | cons a t =>
    rw [hl] at h
    simp only [List.head?] at h
    have hag : a = g := by
      injection h
    subst hag
    have ha : a ∈ fs.map Prod.fst := by
      have hmem : a ∈ (fs.map Prod.fst).filter (fun f =>
          (strStarts f fileName || strStarts f safeId) && !(strEnds f (".mhtml")) &&
          (allowedExtensions fmt).any (fun ext => strEnds f ext)) := by
        rw [hl]
        exact List.mem_cons_self _ _
      exact List.mem_of_mem_filter hmem
    exact onDisk_of_mem_names _ _ ha

theorem workerFileCheck_cancelled (now : Int) (sid : String) (fmt : MediaFormat)
    (fileName safeId : String) (st2 : ServerState) (d2 : SessionData)
    (hstored2 : st2.sessions sid = some d2) (hc2 : d2.cancelled = true) :
    ((workerFileCheck now sid fmt fileName safeId st2).2.1).success = false
    ∧ ∀ g, locateArtifact st2.fs fmt fileName safeId = some g →
        (workerFileCheck now sid fmt fileName safeId st2).2.1 = cancelledOutcome
        ∧ onDisk ((workerFileCheck now sid fmt fileName safeId st2).1).fs g = false
        ∧ (workerFileCheck now sid fmt fileName safeId st2).2.2 =
            [Event.deleteFile g] := by
  have hget := getSessionData_of_stored now sid st2 d2 hstored2
  cases hd : onDisk st2.fs (fileName ++ ("." ++ expectedExtension fmt)) with
  | true =>
    have hw : workerFileCheck now sid fmt fileName safeId st2 =
        ({ st2 with fs := unlink st2.fs (fileName ++ ("." ++ expectedExtension fmt)) },
         cancelledOutcome,
         [Event.deleteFile (fileName ++ ("." ++ expectedExtension fmt))]) := by
      simp only [workerFileCheck, hd, if_true, hget]
      simp [hc2]
    rw [hw]
    constructor
    · rfl
    · intro g hg
      have hge : fileName ++ ("." ++ expectedExtension fmt) = g := by
        simp only [locateArtifact, hd, if_true] at hg
        injection hg
      subst hge
      exact ⟨rfl, onDisk_unlink_self _ _, rfl⟩
  | false =>
    cases hfind : findMatchingFile st2.fs fmt fileName safeId with
    | some g0 =>
      have hdisk0 : onDisk st2.fs g0 = true :=
        findMatching_onDisk _ _ _ _ _ hfind
      have hw : workerFileCheck now sid fmt fileName safeId st2 =
          ({ st2 with fs := unlink st2.fs g0 }, cancelledOutcome,
           [Event.deleteFile g0]) := by
        simp only [workerFileCheck, hd, Bool.false_eq_true, if_false, hfind, hget]
        simp [hc2, hdisk0]
      rw [hw]
      constructor
      · rfl
      · intro g hg
        have hge : g0 = g := by
          simp only [locateArtifact, hd, Bool.false_eq_true, if_false, hfind] at hg
          injection hg
        subst hge
        exact ⟨rfl, onDisk_unlink_self _ _, rfl⟩
    | none =>
      have hw : workerFileCheck now sid fmt fileName safeId st2 =
          (st2, ⟨false, none, some ("Output file not found after download")⟩, []) := by
        simp only [workerFileCheck, hd, Bool.false_eq_true, if_false, hfind]
      rw [hw]
      constructor
      · rfl
      · intro g hg
        simp only [locateArtifact, hd, Bool.false_eq_true, if_false, hfind] at hg
        cases hg

/-- C3: when the child process exits, the worker first removes the handle
from the session's process set (storing the record back), and only resolves
against the re-read cancelled flag: a cancellation observed at the post-exit
check yields the cancellation failure; and a cancellation observed at the
delayed filesystem check never yields success, and whenever an artifact is
located it is deleted and the cancellation failure is reported with exactly
that deletion performed. -/
theorem c3_post_exit_cancellation (now : Int) (sid : String) (h : ProcHandle)
    (code : Int) (stderrData : String) (fmt : MediaFormat)
    (fileName safeId : String) (st st2 : ServerState) (d d2 : SessionData)
    (hstored : st.sessions sid = some d)
    (hstored2 : st2.sessions sid = some d2) :
    (∃ d', ((workerOnCloseSync now sid h code stderrData fmt fileName st).1).sessions
        sid = some d'
      ∧ d'.processes = d.processes.filter (fun q => q != h))
    ∧ (d.cancelled = true →
        (workerOnCloseSync now sid h code stderrData fmt fileName st).2 =
          CloseStep.resolved cancelledOutcome)
    ∧ (d2.cancelled = true →
        ((workerFileCheck now sid fmt fileName safeId st2).2.1).success = false
        ∧ ∀ g, locateArtifact st2.fs fmt fileName safeId = some g →
            (workerFileCheck now sid fmt fileName safeId st2).2.1 = cancelledOutcome
            ∧ onDisk ((workerFileCheck now sid fmt fileName safeId st2).1).fs g = false
            ∧ (workerFileCheck now sid fmt fileName safeId st2).2.2 =
                [Event.deleteFile g]) := by
  refine ⟨?_, ?_, ?_⟩
  · rw [workerOnCloseSync_state, getSessionData_of_stored now sid st d hstored]
    refine ⟨{ d with processes := d.processes.filter (fun q => q != h) }, ?_, rfl⟩
    rw [putSession_sessions]
    simp
  · intro hc
    simp only [workerOnCloseSync, getSessionData_of_stored now sid st d hstored]
    exact workerCloseResolve_cancelled _ _ _ _ _ _ hc
  · intro hc2
    exact workerFileCheck_cancelled now sid fmt fileName safeId st2 d2 hstored2 hc2

/-- Witness for C3: a session cancelled while the handle was registered, and
a second state cancelled after exit with the produced artifact on disk. -/
theorem c3_post_exit_cancellation_witness :
    (∃ d', ((workerOnCloseSync 0 ("s") ⟨7, false⟩ 0 ("") MediaFormat.audio
        ("title") workerStateA).1).sessions ("s") = some d'
      ∧ d'.processes = ([⟨7, false⟩] : List ProcHandle).filter
          (fun q => q != (⟨7, false⟩ : ProcHandle)))
    ∧ ((true : Bool) = true →
        (workerOnCloseSync 0 ("s") ⟨7, false⟩ 0 ("") MediaFormat.audio
          ("title") workerStateA).2 = CloseStep.resolved cancelledOutcome)
    ∧ ((true : Bool) = true →
        ((workerFileCheck 0 ("s") MediaFormat.audio ("title") ("id")
          workerStateB).2.1).success = false
        ∧ ∀ g, locateArtifact workerStateB.fs MediaFormat.audio ("title") ("id") =
            some g →
            (workerFileCheck 0 ("s") MediaFormat.audio ("title") ("id")
              workerStateB).2.1 = cancelledOutcome
            ∧ onDisk ((workerFileCheck 0 ("s") MediaFormat.audio ("title") ("id")
                workerStateB).1).fs g = false
            ∧ (workerFileCheck 0 ("s") MediaFormat.audio ("title") ("id")
                workerStateB).2.2 = [Event.deleteFile g]) :=
  c3_post_exit_cancellation 0 ("s") ⟨7, false⟩ 0 ("") MediaFormat.audio ("title")
    ("id") workerStateA workerStateB ⟨true, [⟨7, false⟩], [], 0, []⟩
    ⟨true, [], [], 0, []⟩ (by decide) (by decide)
